import Mathlib

/-!
Verification of the afrikoop backend core (Django app `core`): a shallow
embedding of `core/models.py` and `core/views.py` into Lean, together with
theorems about the event-registration, auth-token, pagination, i18n and
language-fallback behaviour.

Conventions of the embedding:
- Database tables are lists of rows; primary-key / unique constraints appear
  as hypotheses where a claim needs them.
- Python `int` is `Int`; counts and lengths are `Nat`.
- Python `float` timestamps (`datetime.timestamp()`) are `ℚ`; Python `int()`
  truncation toward zero is `pyInt`.
- A Django `JsonResponse` is modelled by its status code and the payload
  relevant to the claim (for error responses, the `detail` string).
- Request handling is sequential: each view call is one atomic step on the
  store, matching the sequence semantics of the claims.
-/

/-- Status code and detail message of a JSON response, as produced by the
error and confirmation branches of the views. -/
structure Response where
  status : Nat
  detail : String
deriving Repr, DecidableEq

/-! ## Event registration (`models.Event`, `models.EventRegistration`,
`views.event_register_view`) -/

/-- Row of `core.models.Event`, keeping the fields the registration logic
reads: the primary key and the optional capacity
(`capacity = models.PositiveIntegerField(null=True, blank=True)`; `none`
models SQL NULL). The bilingual text fields, timestamps and location play no
role in any claim and are omitted. -/
structure Event where
  id : Nat
  capacity : Option Nat
deriving Repr, DecidableEq

/-- Row of `core.models.EventRegistration`: foreign keys to the user and the
event (by primary key). -/
structure EventRegistration where
  user : Nat
  event : Nat
deriving Repr, DecidableEq

/-- Number of persisted registrations for the event with primary key
`eventId`: `self.registrations.count()` in `models.py`. -/
def regCount (regs : List EventRegistration) (eventId : Nat) : Nat :=
  (regs.filter (fun r => r.event == eventId)).length

/-- Translation of `Event.is_full`:
`self.capacity is not None and self.registrations.count() >= self.capacity`. -/
def Event.is_full (e : Event) (regs : List EventRegistration) : Bool :=
  match e.capacity with
  | none => false
  | some c => decide (regCount regs e.id ≥ c)

/-- Translation of `views.event_register_view` (after the `require_token`
guard has resolved the user): look up the event by primary key, reject when
the event is full, reject when the (user, event) registration already exists
(`EventRegistration.objects.filter(user=..., event=event).exists()`), else
insert the new row. Returns the response and the updated registration table. -/
def event_register_view (events : List Event) (regs : List EventRegistration)
    (userId eventId : Nat) : Response × List EventRegistration :=
  match events.find? (fun e => e.id == eventId) with
  | none => (⟨404, "Event not found."⟩, regs)
  | some event =>
    if event.is_full regs then
      (⟨400, "Event is full."⟩, regs)
    else if regs.any (fun r => r.user == userId && r.event == event.id) then
      (⟨400, "Already registered."⟩, regs)
    else
      (⟨201, "Registered successfully."⟩, regs ++ [⟨userId, event.id⟩])

/-- Effect on the registration table of a sequence of register calls, each
given as a (userId, eventId) pair. -/
def runRegisters (events : List Event) (calls : List (Nat × Nat))
    (regs : List EventRegistration) : List EventRegistration :=
  calls.foldl (fun rs c => (event_register_view events rs c.1 c.2).2) regs

/-- A single register call never pushes the registration count of an event
with capacity `N` above `N`. -/
lemma regCount_event_register_le (events : List Event)
    (regs : List EventRegistration) (u eid' eid N : Nat) (e : Event)
    (hfind : events.find? (fun ev => ev.id == eid) = some e)
    (hcap : e.capacity = some N)
    (h : regCount regs eid ≤ N) :
    regCount (event_register_view events regs u eid').2 eid ≤ N := by
  unfold event_register_view
  cases hfind' : events.find? (fun ev => ev.id == eid') with
  | none => simpa using h
  | some e' =>
    have hid' : e'.id = eid' := by
      have := List.find?_some hfind'
      simpa using this
    by_cases hfull : e'.is_full regs
    · simpa [hfull] using h
    · by_cases hex : regs.any (fun r => r.user == u && r.event == e'.id)
      · simpa [hfull, hex] using h
      · simp only [hfull, hex, if_false, Bool.false_eq_true, if_neg]
        by_cases heq : eid' = eid
        · subst heq
          rw [hfind'] at hfind
          injection hfind with hee
          subst hee
          have hnot : ¬ (N ≤ regCount regs e'.id) := by
            simpa [Event.is_full, hcap] using hfull
          rw [hid'] at hnot
          have hstep : regCount (regs ++ [⟨u, e'.id⟩]) eid'
              = regCount regs eid' + 1 := by
            simp [regCount, List.filter_append, hid']
          omega
        · have : regCount (regs ++ [⟨u, e'.id⟩]) eid = regCount regs eid := by
            simp [regCount, List.filter_append, hid', heq]
          omega

/-- C1. Capacity invariant: for an event with `capacity = N`, any sequence of
register operations keeps the persisted registration count of that event at
most `N`, and a register attempt while the event is full returns 400
"Event is full." and leaves the registration table unchanged. -/
theorem event_capacity_invariant (events : List Event) (eid N : Nat) (e : Event)
    (hfind : events.find? (fun ev => ev.id == eid) = some e)
    (hcap : e.capacity = some N) :
    (∀ (calls : List (Nat × Nat)) (regs : List EventRegistration),
        regCount regs eid ≤ N →
        regCount (runRegisters events calls regs) eid ≤ N)
    ∧ (∀ (regs : List EventRegistration) (u : Nat),
        e.is_full regs = true →
        event_register_view events regs u eid = (⟨400, "Event is full."⟩, regs)) := by
  constructor
  · intro calls
    induction calls with
    | nil => intro regs h; simpa [runRegisters] using h
    | cons c rest ih =>
      intro regs h
      have step := regCount_event_register_le events regs c.1 c.2 eid N e hfind hcap h
      simpa [runRegisters] using ih _ step
  · intro regs u hfull
    unfold event_register_view
    rw [hfind]
    simp [hfull]

/-- Witness for C1 at a concrete store: an event of capacity 2 under four
register calls ends with at most 2 registrations, and a call against the full
event is rejected without inserting. -/
theorem event_capacity_invariant_witness :
    regCount (runRegisters [⟨1, some 2⟩] [(7, 1), (8, 1), (9, 1), (7, 1)] []) 1 ≤ 2
    ∧ event_register_view [⟨1, some 2⟩] [⟨7, 1⟩, ⟨8, 1⟩] 5 1
        = (⟨400, "Event is full."⟩, [⟨7, 1⟩, ⟨8, 1⟩]) :=
  ⟨(event_capacity_invariant [⟨1, some 2⟩] 1 2 ⟨1, some 2⟩ rfl rfl).1
      [(7, 1), (8, 1), (9, 1), (7, 1)] [] (by decide),
   (event_capacity_invariant [⟨1, some 2⟩] 1 2 ⟨1, some 2⟩ rfl rfl).2
      [⟨7, 1⟩, ⟨8, 1⟩] 5 (by decide)⟩

/-- Pairwise distinctness of (user, event) pairs: the model of the
`unique_together = ('user', 'event')` constraint holding on a table. -/
def PairUnique (regs : List EventRegistration) : Prop :=
  regs.Pairwise (fun a b => ¬(a.user = b.user ∧ a.event = b.event))

/-- A single register call preserves (user, event) pair distinctness. -/
lemma pairUnique_event_register (events : List Event)
    (regs : List EventRegistration) (u eid : Nat)
    (h : PairUnique regs) :
    PairUnique (event_register_view events regs u eid).2 := by
  unfold event_register_view
  cases hfind : events.find? (fun ev => ev.id == eid) with
  | none => simpa using h
  | some e =>
    by_cases hfull : e.is_full regs
    · simpa [hfull] using h
    · by_cases hex : regs.any (fun r => r.user == u && r.event == e.id)
      · simpa [hfull, hex] using h
      · simp only [hfull, hex, Bool.false_eq_true, if_neg, if_false]
        have hnone : ∀ r ∈ regs, ¬(r.user = u ∧ r.event = e.id) := by
          intro r hr hcontra
          apply hex
          rw [List.any_eq_true]
          exact ⟨r, hr, by simp [hcontra.1, hcontra.2]⟩
        unfold PairUnique
        rw [List.pairwise_append]
        exact ⟨h, List.pairwise_singleton _ _, by
          intro a ha b hb hab
          simp only [List.mem_singleton] at hb
          subst hb
          exact hnone a ha hab⟩

/-- Counterexample to C2 as stated: with `capacity = 1`, the first register
call for (user 7, event 1) succeeds, but repeating the same call is rejected
with "Event is full." (the capacity check precedes the already-registered
check), not "Already registered.". -/
theorem second_register_message_counterexample :
    (event_register_view [⟨1, some 1⟩] [] 7 1).1.status = 201
    ∧ (event_register_view [⟨1, some 1⟩]
        (event_register_view [⟨1, some 1⟩] [] 7 1).2 7 1).1
        = ⟨400, "Event is full."⟩ := by
  decide

/-- C2 (amended). A second register call for an already-registered
(user, event) pair always fails with status 400 and leaves the registration
table unchanged; the detail is "Already registered." when the event is not
full and "Event is full." when it is. Moreover at most one registration per
(user, event) pair ever exists: pair distinctness is preserved by every
sequence of register calls. -/
theorem second_register_conflict (events : List Event)
    (regs : List EventRegistration) (u eid : Nat) (e : Event)
    (r : EventRegistration)
    (hfind : events.find? (fun ev => ev.id == eid) = some e)
    (hr : r ∈ regs) (hru : r.user = u) (hre : r.event = eid) :
    ((event_register_view events regs u eid).1.status = 400
      ∧ (event_register_view events regs u eid).2 = regs
      ∧ (event_register_view events regs u eid).1.detail
          = (if e.is_full regs then "Event is full." else "Already registered."))
    ∧ (∀ (calls : List (Nat × Nat)) (rs : List EventRegistration),
        PairUnique rs → PairUnique (runRegisters events calls rs)) := by
  constructor
  · have hid : e.id = eid := by
      have := List.find?_some hfind
      simpa using this
    have hex : regs.any (fun x => x.user == u && x.event == e.id) = true := by
      rw [List.any_eq_true]
      exact ⟨r, hr, by simp [hru, hre, hid]⟩
    unfold event_register_view
    rw [hfind]
    by_cases hfull : e.is_full regs
    · simp [hfull]
    · simp [hfull, hex]
  · intro calls
    induction calls with
    | nil => intro rs h; simpa [runRegisters] using h
    | cons c rest ih =>
      intro rs h
      have step := pairUnique_event_register events rs c.1 c.2 h
      simpa [runRegisters] using ih _ step

/-- Witness for C2 (amended) at a concrete store: the duplicate attempt on a
non-full event yields 400 "Already registered." without change, and pair
distinctness survives a call sequence. -/
theorem second_register_conflict_witness :
    ((event_register_view [⟨1, some 5⟩] [⟨7, 1⟩] 7 1).1.status = 400
      ∧ (event_register_view [⟨1, some 5⟩] [⟨7, 1⟩] 7 1).2 = [⟨7, 1⟩]
      ∧ (event_register_view [⟨1, some 5⟩] [⟨7, 1⟩] 7 1).1.detail
          = (if Event.is_full ⟨1, some 5⟩ [⟨7, 1⟩] then "Event is full."
             else "Already registered."))
    ∧ (∀ (calls : List (Nat × Nat)) (rs : List EventRegistration),
        PairUnique rs → PairUnique (runRegisters [⟨1, some 5⟩] calls rs)) :=
  second_register_conflict [⟨1, some 5⟩] [⟨7, 1⟩] 7 1 ⟨1, some 5⟩ ⟨7, 1⟩
    rfl (by decide) rfl rfl

/-- C10. An event whose capacity field is 0 is always full: register fails
with 400 "Event is full." for every registration table, including the empty
one; and an absent (NULL) capacity never makes the event full. -/
theorem capacity_zero_always_full (events : List Event)
    (regs : List EventRegistration) (u eid : Nat) (e : Event)
    (hfind : events.find? (fun ev => ev.id == eid) = some e) :
    (e.capacity = some 0 →
      event_register_view events regs u eid = (⟨400, "Event is full."⟩, regs))
    ∧ (e.capacity = none → e.is_full regs = false) := by
  constructor
  · intro hcap
    have hfull : e.is_full regs = true := by
      simp [Event.is_full, hcap]
    unfold event_register_view
    rw [hfind]
    simp [hfull]
  · intro hcap
    simp [Event.is_full, hcap]

/-- Witness for C10 at a concrete store: capacity 0 rejects a registration on
an event with no registrations at all, and a NULL capacity is never full. -/
theorem capacity_zero_always_full_witness :
    (Event.capacity ⟨1, some 0⟩ = some 0 →
      event_register_view [⟨1, some 0⟩] [] 7 1 = (⟨400, "Event is full."⟩, []))
    ∧ (Event.capacity ⟨1, some 0⟩ = none → Event.is_full ⟨1, some 0⟩ [] = false) :=
  capacity_zero_always_full [⟨1, some 0⟩] [] 7 1 ⟨1, some 0⟩ rfl

/-! ## Auth tokens (`models.Token`, `views.require_token`, `views.logout_view`) -/

/-- Row of `core.models.Token`: the key (primary key, hence unique) and the
owning user's primary key. The `created` timestamp is read by no claim and is
omitted. -/
structure Token where
  key : String
  user : Nat
deriving Repr, DecidableEq

/-- Translation of Python `str.strip()` on the character list of a string:
whitespace removed from both ends. -/
def pyStrip (l : List Char) : List Char :=
  ((l.dropWhile Char.isWhitespace).reverse.dropWhile Char.isWhitespace).reverse

/-- Translation of `'...'.replace('Token ', '')`: every occurrence of the
six characters `Token ` is deleted, scanning left to right. -/
def stripTokenOccurrences : List Char → List Char
  | 'T' :: 'o' :: 'k' :: 'e' :: 'n' :: ' ' :: rest => stripTokenOccurrences rest
  | c :: rest => c :: stripTokenOccurrences rest
  | [] => []

/-- The alphabet of `Token.generate_key`:
`string.ascii_letters + string.digits`. -/
def alphabet : String :=
  "abcdefghijklmnopqrstuvwxyzABCDEFGHIJKLMNOPQRSTUVWXYZ0123456789"

/-- Translation of `Token.generate_key` (default `length = 40`):
`''.join(secrets.choice(alphabet) for _ in range(length))`. The random draws
of `secrets.choice` are modelled by the oracle `choice`; theorems constrain
its values to lie in `alphabet`. -/
def Token.generate_key (choice : Nat → Char) (length : Nat) : String :=
  ⟨(List.range length).map choice⟩

/-- Translation of `Token.create`: delete every token of `user`
(`cls.objects.filter(user=user).delete()`), generate a fresh key, insert and
return the new token together with the updated token table. -/
def Token.create (store : List Token) (u : Nat) (choice : Nat → Char) :
    Token × List Token :=
  let remaining := store.filter (fun t => t.user != u)
  let key := Token.generate_key choice 40
  let token : Token := ⟨key, u⟩
  (token, remaining ++ [token])

/-- Translation of the `require_token` decorator: the `Authorization` header
must start with the literal `Token `; the rest (stripped) is looked up as a
key, an unknown key giving 401 "Invalid token.". On success the associated
token row is returned. -/
def require_token (store : List Token) (authHeader : String) :
    Except Response Token :=
  if authHeader.data.take 6 = "Token ".data then
    let key : String := ⟨pyStrip (authHeader.data.drop 6)⟩
    match store.find? (fun t => t.key == key) with
    | some t => Except.ok t
    | none => Except.error ⟨401, "Invalid token."⟩
  else
    Except.error ⟨401, "Authentication credentials were not provided."⟩

/-- Translation of `logout_view`: guarded by `require_token`; on success the
key is re-extracted via `auth_header.replace('Token ', '').strip()` and every
token with that key is deleted; the response is 200 "Logged out.". -/
def logout_view (store : List Token) (authHeader : String) :
    Response × List Token :=
  match require_token store authHeader with
  | Except.error r => (r, store)
  | Except.ok _ =>
    let key : String := ⟨pyStrip (stripTokenOccurrences authHeader.data)⟩
    (⟨200, "Logged out."⟩, store.filter (fun t => t.key != key))

/-- Appending strings concatenates their character lists. -/
lemma string_data_append (a b : String) : (a ++ b).data = a.data ++ b.data := by
  cases a
  cases b
  rfl

/-- A header of the exact form `Token <key>` passes the prefix check. -/
lemma take6_token_append (l : List Char) :
    ("Token ".data ++ l).take 6 = "Token ".data := rfl

/-- Dropping the `Token ` prefix of such a header leaves the key. -/
lemma drop6_token_append (l : List Char) :
    ("Token ".data ++ l).drop 6 = l := rfl

/-- Deleting `Token ` occurrences from `Token <key>` reduces to the key. -/
lemma stripTokenOccurrences_token_append (l : List Char) :
    stripTokenOccurrences ("Token ".data ++ l) = stripTokenOccurrences l := rfl

/-- C3. `Token.create` deletes every token previously held by the user, so
afterwards the user's only token is the freshly created one; and the
Token-header lookup of a key the user held before a second create (a key
distinct from the fresh one, as the fresh draw is) fails with
401 "Invalid token.". Hypotheses: `k1` is a key of `u` in the store, stored
keys are unique (the primary-key constraint), the fresh key differs from
`k1`, and `k1` carries no surrounding whitespace. -/
theorem token_create_single_active (store : List Token) (u : Nat)
    (choice : Nat → Char) (k1 : String)
    (hmem : (⟨k1, u⟩ : Token) ∈ store)
    (hnodup : (store.map Token.key).Nodup)
    (hfresh : k1 ≠ Token.generate_key choice 40)
    (hclean : pyStrip k1.data = k1.data) :
    (∀ t ∈ (Token.create store u choice).2,
        t.user = u → t = (Token.create store u choice).1)
    ∧ require_token (Token.create store u choice).2 ("Token " ++ k1)
        = Except.error ⟨401, "Invalid token."⟩ := by
  constructor
  · intro t ht htu
    simp only [Token.create, List.mem_append, List.mem_filter,
      List.mem_singleton] at ht
    rcases ht with ⟨_, hne⟩ | rfl
    · have hne' : t.user ≠ u := by simpa using hne
      exact absurd htu hne'
    · rfl
  · have hkey : ∀ t ∈ (Token.create store u choice).2, ¬(t.key == k1) = true := by
      intro t ht
      simp only [Token.create, List.mem_append, List.mem_filter,
        List.mem_singleton] at ht
      rcases ht with ⟨hts, hne⟩ | rfl
      · intro hk
        have hk' : t.key = k1 := by simpa using hk
        have : t = (⟨k1, u⟩ : Token) :=
          List.inj_on_of_nodup_map hnodup hts hmem hk'
        have : t.user = u := by rw [this]
        exact absurd this (by simpa using hne)
      · intro hk
        have hk' : Token.generate_key choice 40 = k1 := by simpa using hk
        exact hfresh hk'.symm
    have hnone : (Token.create store u choice).2.find?
        (fun t => t.key == (⟨pyStrip (("Token " ++ k1).data.drop 6)⟩ : String))
        = none := by
      rw [List.find?_eq_none]
      intro t ht
      have : (⟨pyStrip (("Token " ++ k1).data.drop 6)⟩ : String) = k1 := by
        rw [string_data_append, drop6_token_append, hclean]
      rw [this]
      exact hkey t ht
    unfold require_token
    rw [if_pos (by rw [string_data_append]; exact take6_token_append _)]
    simp only [hnone]

/-- Witness for C3 at a concrete store: after a second create for user 3, the
old key "aaaa" no longer validates and user 3 holds only the new token. -/
theorem token_create_single_active_witness :
    (∀ t ∈ (Token.create [⟨"aaaa", 3⟩] 3 (fun _ => 'b')).2,
        t.user = 3 → t = (Token.create [⟨"aaaa", 3⟩] 3 (fun _ => 'b')).1)
    ∧ require_token (Token.create [⟨"aaaa", 3⟩] 3 (fun _ => 'b')).2 ("Token " ++ "aaaa")
        = Except.error ⟨401, "Invalid token."⟩ :=
  token_create_single_active [⟨"aaaa", 3⟩] 3 (fun _ => 'b') "aaaa"
    (by decide) (by decide) (by decide) (by decide)

/-- Counterexample to C5 as stated: a logout request carrying the
bearer-token scheme with an unknown (or already revoked) key is rejected by
the `require_token` guard with 401 "Invalid token.", not answered with a
200 no-op success. -/
theorem logout_unknown_token_counterexample :
    (logout_view [] "Token abcd").1 = ⟨401, "Invalid token."⟩
    ∧ (logout_view [] "Token abcd").1.status ≠ 200 := by
  decide

/-- C5 (amended). Logout is guarded by token authentication: presenting a
key that is unknown (in particular one already revoked) yields
401 "Invalid token." and leaves the token table unchanged, while presenting
a stored key yields 200 "Logged out." and deletes that token — so a repeat of
the same call falls into the first case rather than erroring. Hypotheses:
the key carries no surrounding whitespace and does not itself contain the
substring `Token ` (both hold for generated keys). -/
theorem logout_requires_valid_token (store : List Token) (k : String)
    (hclean : pyStrip k.data = k.data)
    (hnotok : stripTokenOccurrences k.data = k.data) :
    (store.find? (fun t => t.key == k) = none →
      logout_view store ("Token " ++ k) = (⟨401, "Invalid token."⟩, store))
    ∧ (∀ t0, store.find? (fun t => t.key == k) = some t0 →
      logout_view store ("Token " ++ k)
        = (⟨200, "Logged out."⟩, store.filter (fun t => t.key != k))) := by
  have hkeyeq : (⟨pyStrip (("Token " ++ k).data.drop 6)⟩ : String) = k := by
    rw [string_data_append, drop6_token_append, hclean]
  have hcond : (("Token " ++ k).data.take 6 = "Token ".data) := by
    rw [string_data_append]; exact take6_token_append _
  constructor
  · intro hnone
    unfold logout_view require_token
    rw [if_pos hcond]
    simp only [hkeyeq, hnone]
  · intro t0 hsome
    unfold logout_view require_token
    rw [if_pos hcond]
    have hk2 : (⟨pyStrip (stripTokenOccurrences ("Token " ++ k).data)⟩ : String) = k := by
      rw [string_data_append, stripTokenOccurrences_token_append, hnotok, hclean]
    simp only [hkeyeq, hsome, hk2]

/-- Witness for C5 (amended) at a concrete store: the unknown key "zzzz" gets
401 with the store untouched, and the stored key "abcd" gets 200 with its
token deleted. -/
theorem logout_requires_valid_token_witness :
    (logout_view [(⟨"abcd", 3⟩ : Token)] ("Token " ++ "zzzz")
        = (⟨401, "Invalid token."⟩, [⟨"abcd", 3⟩])
      ∧ logout_view [(⟨"abcd", 3⟩ : Token)] ("Token " ++ "abcd")
        = (⟨200, "Logged out."⟩,
            List.filter (fun t => t.key != "abcd") [(⟨"abcd", 3⟩ : Token)])) :=
  ⟨(logout_requires_valid_token [⟨"abcd", 3⟩] "zzzz" (by decide) (by decide)).1
      (by decide),
   (logout_requires_valid_token [⟨"abcd", 3⟩] "abcd" (by decide) (by decide)).2
      ⟨"abcd", 3⟩ (by decide)⟩

/-- Every character of the key alphabet is alphanumeric. -/
lemma alphabet_alphanumeric : ∀ c ∈ alphabet.data, c.isAlphanum = true := by
  decide

/-- C9. Every key produced by `Token.generate_key` with the default length 40
— hence every token issued by `Token.create` and returned by the register and
login endpoints — has length at least 40 and consists only of alphanumeric
ASCII characters, provided each random draw lies in the alphabet (which
`secrets.choice(alphabet)` guarantees). -/
theorem generate_key_alphanumeric (choice : Nat → Char)
    (hrange : ∀ i, choice i ∈ alphabet.data) :
    40 ≤ (Token.generate_key choice 40).length
    ∧ ∀ c ∈ (Token.generate_key choice 40).data, c.isAlphanum = true := by
  constructor
  · show 40 ≤ ((List.range 40).map choice).length
    simp
  · intro c hc
    simp only [Token.generate_key, List.mem_map, List.mem_range] at hc
    obtain ⟨i, _, rfl⟩ := hc
    exact alphabet_alphanumeric _ (hrange i)

/-- Witness for C9 at a concrete oracle: the constant draw of a lowercase
letter produces a 40-character alphanumeric key. -/
theorem generate_key_alphanumeric_witness :
    40 ≤ (Token.generate_key (fun _ => 'a') 40).length
    ∧ ∀ c ∈ (Token.generate_key (fun _ => 'a') 40).data, c.isAlphanum = true :=
  generate_key_alphanumeric (fun _ => 'a')
    (fun _ => show 'a' ∈ alphabet.data by decide)

/-! ## Event list pagination (`views.events_list_view`) -/

/-- Translation of `page = max(int(request.GET.get('page', '1')), 1)`. The
raw query value is `some n` when `int()` parses it to `n` (a missing
parameter defaults to the string `'1'`, i.e. `some 1`); `none` models the
`ValueError` fallback for a non-numeric value. -/
def parsePage : Option Int → Int
  | some n => max n 1
  | none => 1

/-- Translation of
`page_size = max(min(int(request.GET.get('page_size', '9')), 100), 1)`, with
`none` again modelling the `ValueError` fallback to 9 (a missing parameter
defaults to the string `'9'`, i.e. `some 9`). -/
def parsePageSize : Option Int → Int
  | some n => max (min n 100) 1
  | none => 9

/-- Pagination payload of `events_list_view`: the page window of the ordered
event list plus the pagination metadata fields of the JSON response. -/
structure PageResult (α : Type) where
  results : List α
  page : Int
  page_size : Int
  total : Nat
  total_pages : Int
  has_next : Bool
  has_prev : Bool
deriving Repr, DecidableEq

/-- Translation of the pagination core of `views.events_list_view`, applied
to the already-filtered, already-ordered event list `evs`:
`total_pages = (total + page_size - 1) // page_size if total else 1`, the
clamp `if page > total_pages: page = total_pages`, and the slice
`qs[start:end]` with `start = (page - 1) * page_size`,
`end = start + page_size`. -/
def events_list_view {α : Type} (evs : List α) (pageRaw psRaw : Option Int) :
    PageResult α :=
  let page0 := parsePage pageRaw
  let page_size := parsePageSize psRaw
  let total := evs.length
  let total_pages : Int :=
    if total ≠ 0 then ((total : Int) + page_size - 1) / page_size else 1
  let page := if page0 > total_pages then total_pages else page0
  let start := (page - 1) * page_size
  let stop := start + page_size
  { results := (evs.take stop.toNat).drop start.toNat
    page := page
    page_size := page_size
    total := total
    total_pages := total_pages
    has_next := decide (page < total_pages)
    has_prev := decide (page > 1) }

/-- The ceiling page count is at least 1, and its last page starts strictly
inside the collection. -/
lemma totalPages_facts (t : Nat) (ps : Int) (ht : 0 < t) (hps : 1 ≤ ps) :
    1 ≤ ((t : Int) + ps - 1) / ps
    ∧ (((t : Int) + ps - 1) / ps - 1) * ps < (t : Int) := by
  obtain ⟨p, rfl⟩ : ∃ p : Nat, ps = (p : Int) :=
    ⟨ps.toNat, (Int.toNat_of_nonneg (by omega)).symm⟩
  have hp : 1 ≤ p := by exact_mod_cast hps
  rw [show (t : Int) + (p : Int) - 1 = ((t + p - 1 : Nat) : Int) by omega,
    ← Int.ofNat_ediv]
  have hq1 : 1 ≤ (t + p - 1) / p := by
    rw [Nat.le_div_iff_mul_le (by omega)]
    omega
  have hqmul : (t + p - 1) / p * p ≤ t + p - 1 := Nat.div_mul_le_self _ _
  have hple : p ≤ (t + p - 1) / p * p := Nat.le_mul_of_pos_left p (by omega)
  have hsub : ((t + p - 1) / p - 1) * p = (t + p - 1) / p * p - 1 * p :=
    Nat.sub_mul _ _ _
  have hnat : ((t + p - 1) / p - 1) * p < t := by omega
  constructor
  · exact_mod_cast hq1
  · zify [hq1] at hnat
    exact_mod_cast hnat

/-- Counterexample to C4 as stated: a parsed `page_size=0` is clamped up to
1 by `max(min(0, 100), 1)`, not replaced by the default 9 (only a
non-numeric value falls back to 9). -/
theorem pagination_page_size_zero_counterexample :
    (events_list_view [0] none (some 0)).page_size = 1 ∧ (1 : Int) ≠ 9 := by
  decide

/-- C4 (amended). Pagination degrades gracefully: `page_size=500` is clamped
to 100; `page_size=0` is clamped up to 1 (the default 9 applies only to
missing or non-numeric values); the effective page size always lies in
[1, 100]; the served page never exceeds `total_pages` and a requested page
beyond `total_pages` is clamped down to it; and on a nonempty collection the
returned window is never empty — malformed inputs yield a normal page, not an
error. -/
theorem pagination_clamp {α : Type} (evs : List α) (pageRaw psRaw : Option Int)
    (hne : evs ≠ []) :
    parsePageSize (some 500) = 100
    ∧ parsePageSize (some 0) = 1
    ∧ parsePageSize none = 9
    ∧ 1 ≤ (events_list_view evs pageRaw psRaw).page_size
    ∧ (events_list_view evs pageRaw psRaw).page_size ≤ 100
    ∧ (events_list_view evs pageRaw psRaw).page
        ≤ (events_list_view evs pageRaw psRaw).total_pages
    ∧ (parsePage pageRaw > (events_list_view evs pageRaw psRaw).total_pages →
        (events_list_view evs pageRaw psRaw).page
          = (events_list_view evs pageRaw psRaw).total_pages)
    ∧ (events_list_view evs pageRaw psRaw).results ≠ [] := by
  have hps1 : 1 ≤ parsePageSize psRaw := by
    cases psRaw with
    | none => norm_num [parsePageSize]
    | some n => exact le_max_right _ _
  have hps100 : parsePageSize psRaw ≤ 100 := by
    cases psRaw with
    | none => norm_num [parsePageSize]
    | some n =>
      simp only [parsePageSize]
      omega
  have hpage1 : 1 ≤ parsePage pageRaw := by
    cases pageRaw with
    | none => norm_num [parsePage]
    | some n => exact le_max_right _ _
  have htot : 0 < evs.length := List.length_pos.mpr hne
  have hne0 : evs.length ≠ 0 := by omega
  have hfacts := totalPages_facts evs.length (parsePageSize psRaw) htot hps1
  refine ⟨by decide, by decide, rfl, ?_, ?_, ?_, ?_, ?_⟩
  · simpa only [events_list_view] using hps1
  · simpa only [events_list_view] using hps100
  · simp only [events_list_view, if_pos hne0]
    split_ifs with h
    · exact le_refl _
    · exact le_of_not_lt h
  · simp only [events_list_view, if_pos hne0]
    intro h
    rw [if_pos h]
  · simp only [events_list_view, if_pos hne0, ne_eq]
    set ps := parsePageSize psRaw with hpsdef
    set page0 := parsePage pageRaw with hp0def
    set tp : Int := ((evs.length : Int) + ps - 1) / ps with htpdef
    have htp1 : 1 ≤ tp := hfacts.1
    set pageF : Int := if page0 > tp then tp else page0 with hpFdef
    have hpageF1 : 1 ≤ pageF := by
      rw [hpFdef]
      split_ifs
      · exact htp1
      · exact hpage1
    have hpageFtp : pageF ≤ tp := by
      rw [hpFdef]
      split_ifs with h
      · exact le_refl _
      · exact le_of_not_lt h
    have hstart_lt : (pageF - 1) * ps < (evs.length : Int) :=
      calc (pageF - 1) * ps ≤ (tp - 1) * ps :=
            mul_le_mul_of_nonneg_right (by omega) (by omega)
        _ < (evs.length : Int) := hfacts.2
    have hstart_nonneg : 0 ≤ (pageF - 1) * ps :=
      mul_nonneg (by omega) (by omega)
    set start : Int := (pageF - 1) * ps with hstdef
    clear_value start
    intro hnil
    have hlen := congrArg List.length hnil
    rw [List.length_drop, List.length_take] at hlen
    simp only [List.length_nil] at hlen
    omega

/-- Witness for C4 (amended) at a concrete collection of three events with
page 7 of size 2 requested: the answer is the clamped last page, nonempty. -/
theorem pagination_clamp_witness :
    parsePageSize (some 500) = 100
    ∧ parsePageSize (some 0) = 1
    ∧ parsePageSize none = 9
    ∧ 1 ≤ (events_list_view [10, 20, 30] (some 7) (some 2)).page_size
    ∧ (events_list_view [10, 20, 30] (some 7) (some 2)).page_size ≤ 100
    ∧ (events_list_view [10, 20, 30] (some 7) (some 2)).page
        ≤ (events_list_view [10, 20, 30] (some 7) (some 2)).total_pages
    ∧ (parsePage (some 7) > (events_list_view [10, 20, 30] (some 7) (some 2)).total_pages →
        (events_list_view [10, 20, 30] (some 7) (some 2)).page
          = (events_list_view [10, 20, 30] (some 7) (some 2)).total_pages)
    ∧ (events_list_view [10, 20, 30] (some 7) (some 2)).results ≠ [] :=
  pagination_clamp [10, 20, 30] (some 7) (some 2) (by decide)

/-! ## Cleaning service page (`views.cleaning_service_view`) -/

/-- Row of `core.models.CleaningFeature`: the bilingual bullet text and the
color choice (the ordering index is irrelevant to the claims and omitted;
`page.features.all()` already yields the ordered list). -/
structure CleaningFeature where
  text_en : String
  text_ja : String
  color : String
deriving Repr, DecidableEq

/-- Row of `core.models.CleaningServicePage` with its feature list (the image
and gallery fields play no role in any claim and are omitted). -/
structure CleaningServicePage where
  title_en : String
  title_ja : String
  description_en : String
  description_ja : String
  cta_en : String
  cta_ja : String
  features : List CleaningFeature
deriving Repr, DecidableEq

/-- Translation of Python `a or b` on strings: the empty string is falsy, so
the expression yields `b` exactly when `a` is empty. -/
def pyOrS (a b : String) : String :=
  if a = "" then b else a

/-- Single-language payload of `cleaning_service_view`: title, description,
call-to-action, and the feature list as (text, color) pairs. -/
structure CleaningSingle where
  title : String
  description : String
  cta : String
  features : List (String × String)
deriving Repr, DecidableEq

/-- The `lang == 'en'` branch of `cleaning_service_view`: every field taken
verbatim from the `_en` columns, feature text included (no fallback). -/
def cleaning_view_en (page : CleaningServicePage) : CleaningSingle :=
  { title := page.title_en
    description := page.description_en
    cta := page.cta_en
    features := page.features.map (fun f => (f.text_en, f.color)) }

/-- The `lang == 'ja'` branch of `cleaning_service_view`: title, description
and CTA verbatim from the `_ja` columns, while the feature text is
`f['text_ja'] or f['text_en']` — the only field with an English fallback. -/
def cleaning_view_ja (page : CleaningServicePage) : CleaningSingle :=
  { title := page.title_ja
    description := page.description_ja
    cta := page.cta_ja
    features := page.features.map (fun f => (pyOrS f.text_ja f.text_en, f.color)) }

/-- Response shape of `cleaning_service_view`: a flattened single-language
payload for `lang=en` / `lang=ja`, otherwise the bilingual payload exposing
all suffixed fields (modelled by the page row itself). -/
inductive CleaningResp where
  | single (v : CleaningSingle)
  | bilingual (page : CleaningServicePage)
deriving Repr, DecidableEq

/-- Translation of the language dispatch of `cleaning_service_view` for a
present page row: `lang` is `request.GET.get('lang')`. -/
def cleaning_service_view (page : CleaningServicePage) (lang : Option String) :
    CleaningResp :=
  if lang = some "en" then CleaningResp.single (cleaning_view_en page)
  else if lang = some "ja" then CleaningResp.single (cleaning_view_ja page)
  else CleaningResp.bilingual page

/-- C8. Under `lang=ja` a cleaning feature whose Japanese text is empty is
served with the English text, a nonempty Japanese text is served unchanged,
and the fallback is per-field, not uniform: the `ja` description is served
verbatim (even when empty) and the `en` view never substitutes. -/
theorem cleaning_feature_ja_fallback (page : CleaningServicePage) (i : Nat)
    (f : CleaningFeature) (hf : page.features[i]? = some f) :
    (f.text_ja = "" →
      (cleaning_view_ja page).features[i]? = some (f.text_en, f.color))
    ∧ (f.text_ja ≠ "" →
      (cleaning_view_ja page).features[i]? = some (f.text_ja, f.color))
    ∧ (cleaning_view_ja page).description = page.description_ja
    ∧ (cleaning_view_en page).features[i]? = some (f.text_en, f.color)
    ∧ cleaning_service_view page (some "ja")
        = CleaningResp.single (cleaning_view_ja page) := by
  refine ⟨?_, ?_, rfl, ?_, rfl⟩
  · intro h
    simp [cleaning_view_ja, List.getElem?_map, hf, pyOrS, h]
  · intro h
    simp [cleaning_view_ja, List.getElem?_map, hf, pyOrS, h]
  · simp [cleaning_view_en, List.getElem?_map, hf]

/-- Witness for C8 at the concrete feature of the claim: `text_en` is
"Full turnover" and `text_ja` is empty, so the `ja` view serves
"Full turnover". -/
theorem cleaning_feature_ja_fallback_witness :
    (CleaningFeature.text_ja ⟨"Full turnover", "", "primary"⟩ = "" →
      (cleaning_view_ja ⟨"t", "t2", "d", "d2", "c", "c2",
          [⟨"Full turnover", "", "primary"⟩]⟩).features[0]?
        = some ("Full turnover", "primary"))
    ∧ (CleaningFeature.text_ja ⟨"Full turnover", "", "primary"⟩ ≠ "" →
      (cleaning_view_ja ⟨"t", "t2", "d", "d2", "c", "c2",
          [⟨"Full turnover", "", "primary"⟩]⟩).features[0]?
        = some ("", "primary"))
    ∧ (cleaning_view_ja ⟨"t", "t2", "d", "d2", "c", "c2",
          [⟨"Full turnover", "", "primary"⟩]⟩).description
        = CleaningServicePage.description_ja ⟨"t", "t2", "d", "d2", "c", "c2",
          [⟨"Full turnover", "", "primary"⟩]⟩
    ∧ (cleaning_view_en ⟨"t", "t2", "d", "d2", "c", "c2",
          [⟨"Full turnover", "", "primary"⟩]⟩).features[0]?
        = some ("Full turnover", "primary")
    ∧ cleaning_service_view ⟨"t", "t2", "d", "d2", "c", "c2",
          [⟨"Full turnover", "", "primary"⟩]⟩ (some "ja")
        = CleaningResp.single (cleaning_view_ja ⟨"t", "t2", "d", "d2", "c", "c2",
          [⟨"Full turnover", "", "primary"⟩]⟩) :=
  cleaning_feature_ja_fallback
    ⟨"t", "t2", "d", "d2", "c", "c2", [⟨"Full turnover", "", "primary"⟩]⟩
    0 ⟨"Full turnover", "", "primary"⟩ rfl

/-! ## UI translations (`models.TranslatableString`, `models.SiteTextSettings`,
`views.i18n_view`, `views.i18n_namespace_view`) -/

/-- Translation of Python `int()` applied to a float timestamp: truncation
toward zero, here on the rational model of the float. -/
def pyInt (q : ℚ) : Int := q.num / (q.den : Int)

/-- Row of `core.models.TranslatableString`. The source field `namespace` is
a reserved word in Lean and is rendered `ns`; `updated_at` is the row's
`datetime.timestamp()` value. -/
structure TranslatableString where
  ns : String
  key : String
  language : String
  text : String
  updated_at : ℚ
deriving Repr, DecidableEq

/-- Splitting a character list at commas, keeping empty pieces: the
behaviour of Python `str.split(',')`. -/
def splitCommaAux : List Char → List Char → List String
  | [], acc => [⟨acc.reverse⟩]
  | ',' :: rest, acc => (⟨acc.reverse⟩ : String) :: splitCommaAux rest []
  | c :: rest, acc => splitCommaAux rest (c :: acc)

/-- Translation of `namespaces_param.split(',')`. -/
def pySplitComma (s : String) : List String := splitCommaAux s.data []

/-- Translation of
`[ns.strip() for ns in request.GET.get('ns', 'common').split(',') if ns.strip()]`:
`none` models an absent `ns` query parameter. -/
def i18n_namespaces (nsParam : Option String) : List String :=
  ((pySplitComma (nsParam.getD "common")).map
    (fun s => (⟨pyStrip s.data⟩ : String))).filter (fun s => s != "")

/-- Translation of the Python expression `latest_ts or ts`: `None` and `0.0`
are both falsy, every other float yields itself. -/
def pyOrTs (latest : Option ℚ) (ts : ℚ) : ℚ :=
  match latest with
  | none => ts
  | some l => if l = 0 then ts else l

/-- A Python dict of strings, modelled extensionally as a key-to-value map
(`data[key] = text` is `dictSet`; insertion order is not part of any claim). -/
def dictSet (d : String → Option String) (k v : String) :
    String → Option String :=
  fun q => if q = k then some v else d q

/-- The empty dict `{}`. -/
def emptyDict : String → Option String := fun _ => none

/-- Translation of
`TranslatableString.objects.filter(language=lang, namespace=ns)`. -/
def nsRowsFilter (rows : List TranslatableString) (lang ns : String) :
    List TranslatableString :=
  rows.filter (fun r => r.language == lang && r.ns == ns)

/-- One iteration of the row loop of `i18n_view`:
`data[row.key] = row.text; latest_ts = max(latest_ts or ts, ts)`. -/
def i18n_merge_step (acc : (String → Option String) × Option ℚ)
    (r : TranslatableString) : (String → Option String) × Option ℚ :=
  (dictSet acc.1 r.key r.text,
    some (max (pyOrTs acc.2 r.updated_at) r.updated_at))

/-- Row of `core.models.SiteTextSettings`: the fixed set of editor-managed
label overrides merged into every `i18n_view` response. -/
structure SiteTextSettings where
  home_label_en : String
  home_label_ja : String
  events_label_en : String
  events_label_ja : String
  cleaning_label_en : String
  cleaning_label_ja : String
  cleaning_short_en : String
  cleaning_short_ja : String
  login_en : String
  login_ja : String
  register_en : String
  register_ja : String
  logout_en : String
  logout_ja : String
  browse_events_en : String
  browse_events_ja : String
  learn_more_en : String
  learn_more_ja : String
  instagram_url : String
deriving Repr, DecidableEq

/-- The `data.update({...})` payload of `i18n_view` built from the
`SiteTextSettings` row, in source order: the `_ja` labels when
`lang == 'ja'`, else the `_en` labels. -/
def siteTextPairs (st : SiteTextSettings) (lang : String) :
    List (String × String) :=
  if lang = "ja" then
    [("home", st.home_label_ja), ("events", st.events_label_ja),
     ("cleaning", st.cleaning_label_ja), ("cleaning_short", st.cleaning_short_ja),
     ("login", st.login_ja), ("register", st.register_ja),
     ("logout", st.logout_ja), ("browse_events", st.browse_events_ja),
     ("learn_more", st.learn_more_ja), ("instagram_url", st.instagram_url)]
  else
    [("home", st.home_label_en), ("events", st.events_label_en),
     ("cleaning", st.cleaning_label_en), ("cleaning_short", st.cleaning_short_en),
     ("login", st.login_en), ("register", st.register_en),
     ("logout", st.logout_en), ("browse_events", st.browse_events_en),
     ("learn_more", st.learn_more_en), ("instagram_url", st.instagram_url)]

/-- Translation of `views.i18n_view`: merge the rows of each requested
namespace in order (later namespaces overriding earlier ones), overlay the
`SiteTextSettings` labels (`SiteTextSettings.objects.first()`, `none` when
the table is empty), and derive the weak validator
`W/"i18n-{lang}-{int(latest_ts)}"` — absent when `latest_ts` stayed `None`. -/
def i18n_view (rows : List TranslatableString) (st : Option SiteTextSettings)
    (lang : String) (nsParam : Option String) :
    (String → Option String) × Option String :=
  let merged := (i18n_namespaces nsParam).foldl
    (fun acc ns => (nsRowsFilter rows lang ns).foldl i18n_merge_step acc)
    (emptyDict, none)
  let data := match st with
    | some s => (siteTextPairs s lang).foldl (fun d p => dictSet d p.1 p.2) merged.1
    | none => merged.1
  (data, merged.2.map (fun ts =>
    "W/\"i18n-" ++ lang ++ "-" ++ toString (pyInt ts) ++ "\""))

/-- Python `max(...)` over the timestamps of a nonempty row list (0 is a
dummy for the empty list, on which the source never calls `max`). -/
def maxTsList (l : List TranslatableString) : ℚ :=
  match l with
  | [] => 0
  | r :: rest => rest.foldl (fun a x => max a x.updated_at) r.updated_at

/-- Translation of `views.i18n_namespace_view`: the flat mapping of a single
namespace and the validator `W/"i18n-{lang}-{namespace}-{int(latest_ts)}"`,
set only when the row set is nonempty (`if rows:`). -/
def i18n_namespace_view (rows : List TranslatableString) (lang ns : String) :
    (String → Option String) × Option String :=
  let rs := nsRowsFilter rows lang ns
  let data := rs.foldl (fun d r => dictSet d r.key r.text) emptyDict
  if rs.isEmpty then (data, none)
  else (data, some ("W/\"i18n-" ++ lang ++ "-" ++ ns ++ "-"
    ++ toString (pyInt (maxTsList rs)) ++ "\""))

/-- The rows contributing to an `i18n_view` response: the namespace filters
concatenated in request order. -/
def contributingRows (rows : List TranslatableString) (lang : String)
    (nsParam : Option String) : List TranslatableString :=
  (i18n_namespaces nsParam).flatMap (fun ns => nsRowsFilter rows lang ns)

/-- The dict component of the merge loop ignores the timestamp component. -/
lemma merge_fold_fst (l : List TranslatableString)
    (acc : (String → Option String) × Option ℚ) :
    (l.foldl i18n_merge_step acc).1
      = l.foldl (fun d r => dictSet d r.key r.text) acc.1 := by
  induction l generalizing acc with
  | nil => rfl
  | cons r rest ih =>
    simp only [List.foldl_cons]
    rw [ih]
    rfl

/-- The timestamp component of the merge loop ignores the dict component. -/
lemma merge_fold_snd (l : List TranslatableString)
    (acc : (String → Option String) × Option ℚ) :
    (l.foldl i18n_merge_step acc).2
      = l.foldl (fun t r => some (max (pyOrTs t r.updated_at) r.updated_at)) acc.2 := by
  induction l generalizing acc with
  | nil => rfl
  | cons r rest ih =>
    simp only [List.foldl_cons]
    rw [ih]
    rfl

/-- Folding namespace by namespace is folding over the concatenated rows. -/
lemma foldl_flatMap {β γ δ : Type} (ll : List γ) (f : γ → List δ)
    (g : β → δ → β) (init : β) :
    ll.foldl (fun acc x => (f x).foldl g acc) init
      = (ll.flatMap f).foldl g init := by
  induction ll generalizing init with
  | nil => rfl
  | cons x rest ih =>
    simp only [List.foldl_cons, List.flatMap_cons, List.foldl_append]
    exact ih _

/-- Reading back the key just written. -/
lemma dictSet_get_self (d : String → Option String) (k v : String) :
    dictSet d k v k = some v := by
  simp [dictSet]

/-- Writing one key leaves every other key unchanged. -/
lemma dictSet_get_other (d : String → Option String) (k v q : String)
    (h : q ≠ k) : dictSet d k v q = d q := by
  simp [dictSet, h]

/-- A row loop that never writes key `k` leaves `k` unchanged. -/
lemma rowFold_get_of_not_mem (rs : List TranslatableString)
    (d : String → Option String) (k : String)
    (h : ∀ r ∈ rs, r.key ≠ k) :
    (rs.foldl (fun d r => dictSet d r.key r.text) d) k = d k := by
  induction rs generalizing d with
  | nil => rfl
  | cons r rest ih =>
    simp only [List.foldl_cons]
    rw [ih _ (fun x hx => h x (List.mem_cons_of_mem _ hx))]
    exact dictSet_get_other _ _ _ _
      (fun he => h r (List.mem_cons_self _ _) he.symm)

/-- A row loop whose every `k`-keyed row carries text `v` (and which has at
least one such row) ends with `k` bound to `v`. -/
lemma rowFold_get_of_mem (rs : List TranslatableString) (k v : String) :
    ∀ d : String → Option String, (∃ r ∈ rs, r.key = k) →
    (∀ r ∈ rs, r.key = k → r.text = v) →
    (rs.foldl (fun d r => dictSet d r.key r.text) d) k = some v := by
  induction rs with
  | nil =>
    intro d hex _
    simp at hex
  | cons r rest ih =>
    intro d hex hall
    simp only [List.foldl_cons]
    by_cases hrest : ∃ x ∈ rest, x.key = k
    · exact ih _ hrest (fun x hx hxk => hall x (List.mem_cons_of_mem _ hx) hxk)
    · have hrk : r.key = k := by
        rcases hex with ⟨x, hx, hxk⟩
        rcases List.mem_cons.mp hx with rfl | hx'
        · exact hxk
        · exact absurd ⟨x, hx', hxk⟩ hrest
      have hnone : ∀ x ∈ rest, x.key ≠ k := by
        intro x hx hxk
        exact hrest ⟨x, hx, hxk⟩
      rw [rowFold_get_of_not_mem rest _ k hnone]
      have hrv : r.text = v := hall r (List.mem_cons_self _ _) hrk
      simp [dictSet, hrk, hrv]

/-- An overlay loop that never writes key `k` leaves `k` unchanged. -/
lemma pairFold_get_of_not_mem (ps : List (String × String))
    (d : String → Option String) (k : String)
    (h : ∀ p ∈ ps, p.1 ≠ k) :
    (ps.foldl (fun d p => dictSet d p.1 p.2) d) k = d k := by
  induction ps generalizing d with
  | nil => rfl
  | cons p rest ih =>
    simp only [List.foldl_cons]
    rw [ih _ (fun x hx => h x (List.mem_cons_of_mem _ hx))]
    exact dictSet_get_other _ _ _ _
      (fun he => h p (List.mem_cons_self _ _) he.symm)

/-- The timestamp loop yields `None` exactly when it never ran. -/
lemma tsfold_eq_none_iff (l : List TranslatableString) (acc : Option ℚ) :
    l.foldl (fun t r => some (max (pyOrTs t r.updated_at) r.updated_at)) acc = none
      ↔ acc = none ∧ l = [] := by
  induction l generalizing acc with
  | nil => simp
  | cons r rest ih =>
    simp [List.foldl_cons, ih]

/-- With nonnegative timestamps, the timestamp loop started at a nonnegative
value computes the running maximum (the `latest_ts or ts` quirk, which
restarts at `ts` when the accumulator is exactly 0, is harmless there). -/
lemma tsfold_some_max (l : List TranslatableString) (m : ℚ) (hm : 0 ≤ m)
    (hl : ∀ r ∈ l, 0 ≤ r.updated_at) :
    l.foldl (fun t r => some (max (pyOrTs t r.updated_at) r.updated_at)) (some m)
      = some (l.foldl (fun a x => max a x.updated_at) m) := by
  induction l generalizing m with
  | nil => rfl
  | cons r rest ih =>
    simp only [List.foldl_cons]
    have hr : 0 ≤ r.updated_at := hl r (List.mem_cons_self _ _)
    have hstep : max (pyOrTs (some m) r.updated_at) r.updated_at
        = max m r.updated_at := by
      by_cases h0 : m = 0
      · simp [pyOrTs, h0, max_eq_right hr]
      · simp [pyOrTs, h0]
    rw [hstep]
    exact ih (max m r.updated_at) (le_trans hm (le_max_left _ _))
      (fun x hx => hl x (List.mem_cons_of_mem _ hx))

/-- With nonnegative timestamps, the timestamp loop over a nonempty row list
computes exactly the maximum timestamp. -/
lemma tsfold_maxTsList (l : List TranslatableString)
    (hl : ∀ r ∈ l, 0 ≤ r.updated_at) (hne : l ≠ []) :
    l.foldl (fun t r => some (max (pyOrTs t r.updated_at) r.updated_at)) none
      = some (maxTsList l) := by
  cases l with
  | nil => exact absurd rfl hne
  | cons r rest =>
    simp only [List.foldl_cons]
    have h1 : (some (max (pyOrTs none r.updated_at) r.updated_at) : Option ℚ)
        = some r.updated_at := by
      simp [pyOrTs]
    rw [h1]
    exact tsfold_some_max rest r.updated_at (hl r (List.mem_cons_self _ _))
      (fun x hx => hl x (List.mem_cons_of_mem _ hx))

/-- With nonnegative timestamps the `i18n_view` validator is exactly: absent
when no row matched, else the fixed string built from the truncated maximum
timestamp of the contributing rows. -/
lemma i18n_view_snd (rows : List TranslatableString)
    (st : Option SiteTextSettings) (lang : String) (nsParam : Option String)
    (hnn : ∀ r ∈ rows, 0 ≤ r.updated_at) :
    (i18n_view rows st lang nsParam).2
      = if contributingRows rows lang nsParam = [] then none
        else some ("W/\"i18n-" ++ lang ++ "-"
          ++ toString (pyInt (maxTsList (contributingRows rows lang nsParam)))
          ++ "\"") := by
  have hsub : ∀ r ∈ contributingRows rows lang nsParam, 0 ≤ r.updated_at := by
    intro r hr
    simp only [contributingRows, List.mem_flatMap, nsRowsFilter,
      List.mem_filter] at hr
    obtain ⟨ns, _, hrf, _⟩ := hr
    exact hnn r hrf
  unfold contributingRows at hsub ⊢
  simp only [i18n_view]
  rw [foldl_flatMap, merge_fold_snd]
  by_cases hc : (i18n_namespaces nsParam).flatMap
      (fun ns => nsRowsFilter rows lang ns) = []
  · rw [hc]
    simp
  · rw [if_neg hc]
    rw [show ((emptyDict, none) : (String → Option String) × Option ℚ).2
      = none from rfl]
    rw [tsfold_maxTsList _ hsub hc]
    rfl

/-- C6. Merge precedence: with namespaces `common,home` both defining key
`title`, the merged `lang=en` response carries the `home` value of `title`
(later namespaces override earlier ones, and the SiteTextSettings overlay —
applied after the namespace merge — does not touch `title`); and the overlay
does take precedence where it applies: its `learn_more` label wins over any
namespace data. The uniqueness hypothesis is the
`unique_together = ('namespace', 'key', 'language')` constraint. -/
theorem i18n_merge_precedence (rows : List TranslatableString)
    (st : Option SiteTextSettings) (r1 r2 : TranslatableString)
    (uniq : ∀ a ∈ rows, ∀ b ∈ rows,
      a.ns = b.ns → a.key = b.key → a.language = b.language → a = b)
    (h1mem : r1 ∈ rows) (h1ns : r1.ns = "common") (h1key : r1.key = "title")
    (h1lang : r1.language = "en")
    (h2mem : r2 ∈ rows) (h2ns : r2.ns = "home") (h2key : r2.key = "title")
    (h2lang : r2.language = "en") :
    (i18n_view rows st "en" (some "common,home")).1 "title" = some r2.text
    ∧ (∀ (s : SiteTextSettings) (rows' : List TranslatableString)
        (nsP : Option String),
        (i18n_view rows' (some s) "en" nsP).1 "learn_more"
          = some s.learn_more_en) := by
  have hex : ∃ x ∈ nsRowsFilter rows "en" "home", x.key = "title" := by
    refine ⟨r2, ?_, h2key⟩
    simp only [nsRowsFilter, List.mem_filter]
    exact ⟨h2mem, by simp [h2lang, h2ns]⟩
  have hall : ∀ x ∈ nsRowsFilter rows "en" "home",
      x.key = "title" → x.text = r2.text := by
    intro x hx hxk
    simp only [nsRowsFilter, List.mem_filter, Bool.and_eq_true,
      beq_iff_eq] at hx
    obtain ⟨hxmem, hxl, hxn⟩ := hx
    have hx2 : x = r2 := uniq x hxmem r2 h2mem (by rw [hxn, h2ns])
      (by rw [hxk, h2key]) (by rw [hxl, h2lang])
    rw [hx2]
  have hns : i18n_namespaces (some "common,home") = ["common", "home"] := by
    decide
  constructor
  · cases st with
    | none =>
      simp only [i18n_view, hns, List.foldl_cons, List.foldl_nil]
      rw [merge_fold_fst]
      exact rowFold_get_of_mem _ "title" r2.text _ hex hall
    | some s =>
      simp only [i18n_view, hns, siteTextPairs,
        if_neg (show ¬("en" = "ja") by decide), List.foldl_cons, List.foldl_nil]
      rw [dictSet_get_other _ _ _ _ (by decide),
        dictSet_get_other _ _ _ _ (by decide),
        dictSet_get_other _ _ _ _ (by decide),
        dictSet_get_other _ _ _ _ (by decide),
        dictSet_get_other _ _ _ _ (by decide),
        dictSet_get_other _ _ _ _ (by decide),
        dictSet_get_other _ _ _ _ (by decide),
        dictSet_get_other _ _ _ _ (by decide),
        dictSet_get_other _ _ _ _ (by decide),
        dictSet_get_other _ _ _ _ (by decide),
        merge_fold_fst]
      exact rowFold_get_of_mem _ "title" r2.text _ hex hall
  · intro s rows' nsP
    simp only [i18n_view, siteTextPairs,
      if_neg (show ¬("en" = "ja") by decide), List.foldl_cons, List.foldl_nil]
    rw [dictSet_get_other _ _ _ _ (by decide), dictSet_get_self]

/-- Witness for C6 at a concrete store: two `title` rows in `common` and
`home`, merged for `en`, yield the `home` text. -/
theorem i18n_merge_precedence_witness :
    (i18n_view [⟨"common", "title", "en", "Common Title", 1⟩,
        ⟨"home", "title", "en", "Home Title", 2⟩] none "en"
        (some "common,home")).1 "title"
      = some (TranslatableString.text ⟨"home", "title", "en", "Home Title", 2⟩)
    ∧ (∀ (s : SiteTextSettings) (rows' : List TranslatableString)
        (nsP : Option String),
        (i18n_view rows' (some s) "en" nsP).1 "learn_more"
          = some s.learn_more_en) :=
  i18n_merge_precedence
    [⟨"common", "title", "en", "Common Title", 1⟩,
     ⟨"home", "title", "en", "Home Title", 2⟩]
    none
    ⟨"common", "title", "en", "Common Title", 1⟩
    ⟨"home", "title", "en", "Home Title", 2⟩
    (by decide) (by decide) rfl rfl rfl (by decide) rfl rfl rfl

/-- Counterexample to C7 as stated: changing the timestamp of a contributing
row (here from 2 to 3, below the maximum 5) does not change the validator —
only the truncated maximum matters. -/
theorem i18n_validator_unchanged_counterexample :
    (i18n_view [⟨"common", "a", "en", "x", 5⟩, ⟨"common", "b", "en", "y", 2⟩]
        none "en" none).2
      = (i18n_view [⟨"common", "a", "en", "x", 5⟩, ⟨"common", "b", "en", "y", 3⟩]
          none "en" none).2
    ∧ (TranslatableString.updated_at ⟨"common", "b", "en", "y", 2⟩
        ≠ TranslatableString.updated_at ⟨"common", "b", "en", "y", 3⟩)
    ∧ (⟨"common", "b", "en", "y", 2⟩ : TranslatableString)
        ∈ contributingRows
          [⟨"common", "a", "en", "x", 5⟩, ⟨"common", "b", "en", "y", 2⟩]
          "en" none := by
  refine ⟨by decide, by decide, by decide⟩

/-- C7 (amended). The weak validator is a deterministic function of the
truncated maximum `updated_at` over the contributing rows: it is absent
exactly when no row matched, and two stores (under any overlay settings)
whose contributing rows have equal truncated maxima receive the identical
validator; the single-namespace endpoint likewise omits the validator exactly
when no row matched. Timestamps are nonnegative (Unix timestamps). -/
theorem i18n_validator_from_max (rows1 rows2 : List TranslatableString)
    (st1 st2 : Option SiteTextSettings) (lang : String) (nsParam : Option String)
    (lang2 ns2 : String)
    (h1 : ∀ r ∈ rows1, 0 ≤ r.updated_at)
    (h2 : ∀ r ∈ rows2, 0 ≤ r.updated_at) :
    ((i18n_view rows1 st1 lang nsParam).2 = none
      ↔ contributingRows rows1 lang nsParam = [])
    ∧ (contributingRows rows1 lang nsParam ≠ [] →
       contributingRows rows2 lang nsParam ≠ [] →
       pyInt (maxTsList (contributingRows rows1 lang nsParam))
         = pyInt (maxTsList (contributingRows rows2 lang nsParam)) →
       (i18n_view rows1 st1 lang nsParam).2 = (i18n_view rows2 st2 lang nsParam).2)
    ∧ ((i18n_namespace_view rows1 lang2 ns2).2 = none
      ↔ nsRowsFilter rows1 lang2 ns2 = []) := by
  refine ⟨?_, ?_, ?_⟩
  · rw [i18n_view_snd rows1 st1 lang nsParam h1]
    by_cases hc : contributingRows rows1 lang nsParam = [] <;> simp [hc]
  · intro hne1 hne2 heq
    rw [i18n_view_snd rows1 st1 lang nsParam h1,
      i18n_view_snd rows2 st2 lang nsParam h2, if_neg hne1, if_neg hne2, heq]
  · simp only [i18n_namespace_view]
    by_cases hc : (nsRowsFilter rows1 lang2 ns2).isEmpty
    · rw [if_pos hc]
      simp only [List.isEmpty_iff] at hc
      simp [hc]
    · rw [if_neg hc]
      have hc' : ¬ nsRowsFilter rows1 lang2 ns2 = [] := by
        simpa [List.isEmpty_iff] using hc
      simp [hc']

/-- Witness for C7 (amended) at concrete stores: two different stores whose
contributing rows share the truncated maximum 5 receive the same validator;
the validator-absence equivalences hold at the concrete store. -/
theorem i18n_validator_from_max_witness :
    ((i18n_view [⟨"common", "a", "en", "x", 5⟩] none "en" none).2 = none
      ↔ contributingRows [⟨"common", "a", "en", "x", 5⟩] "en" none = [])
    ∧ (contributingRows [⟨"common", "a", "en", "x", 5⟩] "en" none ≠ [] →
       contributingRows [⟨"common", "c", "en", "z", 5⟩] "en" none ≠ [] →
       pyInt (maxTsList (contributingRows [⟨"common", "a", "en", "x", 5⟩] "en" none))
         = pyInt (maxTsList (contributingRows
             [⟨"common", "c", "en", "z", 5⟩] "en" none)) →
       (i18n_view [⟨"common", "a", "en", "x", 5⟩] none "en" none).2
         = (i18n_view [⟨"common", "c", "en", "z", 5⟩] none "en" none).2)
    ∧ ((i18n_namespace_view [⟨"common", "a", "en", "x", 5⟩] "en" "common").2 = none
      ↔ nsRowsFilter [⟨"common", "a", "en", "x", 5⟩] "en" "common" = []) :=
  i18n_validator_from_max [⟨"common", "a", "en", "x", 5⟩]
    [⟨"common", "c", "en", "z", 5⟩] none none "en" none "en" "common"
    (by decide) (by decide)
